import Mathlib

set_option maxRecDepth 10000

/-!
Verification of the GIF still-image decoder in `src/gif.py`.

The embedding mirrors the Python source function by function.  A byte buffer is a
`List Nat`; Python runtime exceptions (IndexError, ValueError, NameError, TypeError,
ZeroDivisionError) are modelled by an error type, and every extractor returns
`Except PyError _`.  Python locals that may be referenced before assignment
(`code_table`, `first`, `previous_code` in `extract_image`) are `Option`-valued, a
read of an unbound one raising the NameError the interpreter would raise.  The two
`while` loops of `extract_image` are modelled with an explicit fuel parameter whose
exhaustion is a distinguished error `PyError.fuel`; it is proved unreachable for the
fuel the embedding supplies.
-/

namespace Gif

/-- Python runtime exceptions raised by the source, plus the fuel marker of the
loop embeddings (proved unreachable below). -/
inductive PyError where
  | indexError
  | valueError
  | nameError
  | typeError
  | zeroDivisionError
  | fuel
deriving DecidableEq

/-- One colour of the global colour table: the list of its channel bytes
(an RGB triple for a well-formed table). -/
abbrev Color := List Nat

/-- An element that can end up inside a colour sequence or the flat output:
the Python lists are heterogeneous, mixing channel-byte triples with the
single-character strings produced by indexing into the "CC"/"EOI" sentinels. -/
inductive Px where
  | color (c : Color)
  | ch (c : Char)
deriving DecidableEq

/-- A code-table entry of `extract_image`: either a list of pixels or one of the
sentinel strings "CC" / "EOI". -/
inductive Entry where
  | colors (cs : List Px)
  | sent (st : String)
deriving DecidableEq

/-- `data[i]` for a Python sequence at a non-negative index: IndexError out of range. -/
def pyByte (data : List Nat) (i : Nat) : Except PyError Nat :=
  if h : i < data.length then .ok (data.get ⟨i, h⟩) else .error .indexError

/-- `data[a:b]` for non-negative bounds: Python slicing never raises, it truncates. -/
def pySlice (data : List Nat) (a b : Nat) : List Nat :=
  (data.drop a).take (b - a)

/-- `int.from_bytes(bs, "little")`; the empty slice gives 0, as in Python. -/
def fromBytesLE (bs : List Nat) : Nat :=
  bs.foldr (fun b acc => b + 256 * acc) 0

/-- Least-significant-first binary digits of `n` (empty for 0); the first argument
is structural fuel, `n` itself always being enough. -/
def natBitsRevAux : Nat → Nat → List Nat
  | 0, _ => []
  | _ + 1, 0 => []
  | f + 1, n + 1 => ((n + 1) % 2) :: natBitsRevAux f ((n + 1) / 2)

/-- `bin(n)[2:]` as a list of bit digits, most significant first and without leading
zeros; `bin(0)[2:] = "0"`. -/
def binDigits (n : Nat) : List Nat :=
  if n = 0 then [0] else (natBitsRevAux n n).reverse

/-- `int(s, 2)` for a list of bit digits: ValueError on the empty string. -/
def bitsVal (bits : List Nat) : Except PyError Nat :=
  if bits = [] then .error .valueError
  else .ok (bits.foldl (fun acc b => 2 * acc + b) 0)

/-- The screen-descriptor tuple of `extract_screen_descriptor` (the last field is
the source's pixel-ratio byte). -/
structure ScreenDesc where
  width : Nat
  height : Nat
  gc_fl : Nat
  cr : Nat
  sort_fl : Nat
  gc_size : Nat
  bcolour_i : Nat
  px_aspect : Nat
deriving DecidableEq

/-- `extract_screen_descriptor` from `src/gif.py`: little-endian width and height,
two single-byte reads, then the packed byte decomposed through `bin(data[10])[2:]`
exactly as the source does (no padding of the binary string). -/
def extract_screen_descriptor (data : List Nat) : Except PyError ScreenDesc :=
  let width := fromBytesLE (pySlice data 6 8)
  let height := fromBytesLE (pySlice data 8 10)
  match pyByte data 11 with
  | .error e => .error e
  | .ok bcolour_i =>
    match pyByte data 12 with
    | .error e => .error e
    | .ok aspect =>
      match pyByte data 10 with
      | .error e => .error e
      | .ok pb =>
        let packed_field := binDigits pb
        match pyByte packed_field 0 with
        | .error e => .error e
        | .ok gc_fl =>
          match bitsVal (pySlice packed_field 1 4) with
          | .error e => .error e
          | .ok cr =>
            match pyByte packed_field 4 with
            | .error e => .error e
            | .ok sort_fl =>
              match bitsVal (pySlice packed_field 5 8) with
              | .error e => .error e
              | .ok gc_size =>
                .ok ⟨width, height, gc_fl, cr, sort_fl, gc_size, bcolour_i, aspect⟩

/-- Structural helper grouping the colour-table bytes three at a time, as the
source's `range(0, len(table_bytes), 3)` loop does (a short final group is kept). -/
def chunk3Aux : Nat → List Nat → List (List Nat)
  | 0, _ => []
  | _ + 1, [] => []
  | f + 1, a :: rest => (a :: rest.take 2) :: chunk3Aux f (rest.drop 2)

/-- Byte groups of three, fuelled by the list length (always sufficient). -/
def chunk3 (bytes : List Nat) : List (List Nat) :=
  chunk3Aux bytes.length bytes

/-- `extract_global_colour_table` from `src/gif.py`: slices
`data[13 : 13 + 3 * 2 ** (gc_size + 1)]` and groups it into RGB rows. -/
def extract_global_colour_table (data : List Nat) : Except PyError (List Color) :=
  match extract_screen_descriptor data with
  | .error e => .error e
  | .ok sd =>
    let table_size := 3 * 2 ^ (sd.gc_size + 1)
    .ok (chunk3 (pySlice data 13 (13 + table_size)))

/-- `bytes.find(b, start)`: first index of `b` at or after `start`, `-1` if absent. -/
def pyFind (data : List Nat) (b : Nat) (start : Nat) : Int :=
  match (data.drop start).findIdx? (fun x => x == b) with
  | some i => (start : Int) + i
  | none => -1

/-- The image-descriptor tuple of `extract_image_descriptor`. -/
structure ImageDesc where
  left : Nat
  top : Nat
  width : Nat
  height : Nat
  lc_fl : Nat
  itl_fl : Nat
  sort_fl : Nat
  res : Nat
  lc_size : Nat
deriving DecidableEq

/-- `extract_image_descriptor` from `src/gif.py`: scans for the 0x2C separator from
just past the global colour table (`find` yielding `-1` when absent, after which the
reads happen at the resulting small offsets), reads four little-endian fields, and
decomposes the packed byte through `bin(..)[2:]` with the zero special case. -/
def extract_image_descriptor (data : List Nat) : Except PyError ImageDesc :=
  match extract_screen_descriptor data with
  | .error e => .error e
  | .ok sd =>
    let table_size := 3 * 2 ^ (sd.gc_size + 1)
    let search_start := 13 + table_size
    let start := pyFind data 44 search_start
    let left := fromBytesLE (pySlice data (start + 1).toNat (start + 3).toNat)
    let top := fromBytesLE (pySlice data (start + 3).toNat (start + 5).toNat)
    let width := fromBytesLE (pySlice data (start + 5).toNat (start + 7).toNat)
    let height := fromBytesLE (pySlice data (start + 7).toNat (start + 9).toNat)
    match pyByte data (start + 9).toNat with
    | .error e => .error e
    | .ok pb =>
      let packed_field := binDigits pb
      if packed_field = [0] then
        .ok ⟨left, top, width, height, 0, 0, 0, 0, 0⟩
      else
        match pyByte packed_field 0 with
        | .error e => .error e
        | .ok lc_fl =>
          match pyByte packed_field 1 with
          | .error e => .error e
          | .ok itl_fl =>
            match pyByte packed_field 2 with
            | .error e => .error e
            | .ok sort_fl =>
              match bitsVal (pySlice packed_field 2 4) with
              | .error e => .error e
              | .ok res =>
                match bitsVal (pySlice packed_field 4 7) with
                | .error e => .error e
                | .ok lc_size =>
                  .ok ⟨left, top, width, height, lc_fl, itl_fl, sort_fl, res, lc_size⟩

/-- The 8 bits of one payload byte, least significant first: `bin(byte)[2:]` padded
on the left to 8 digits and reversed, as in the sub-block loop of `extract_image`
(a value above 255 keeps all its digits, like the source). -/
def byteBitsLSB (b : Nat) : List Nat :=
  let long_byte := binDigits b
  let long_byte :=
    if long_byte.length < 8 then List.replicate (8 - long_byte.length) 0 ++ long_byte
    else long_byte
  long_byte.reverse

/-- The sub-block reassembly loop of `extract_image`: read a length byte, append
that many payload bytes as bits, repeat until a zero length byte; reading the next
length byte past the buffer is the IndexError the source would raise. -/
def subBlockLoop (image_bytes : List Nat) :
    Nat → Nat → Nat → List Nat → Except PyError (List Nat)
  | 0, _, _, _ => .error .fuel
  | _ + 1, _, 0, acc => .ok acc
  | f + 1, sub_block_start, len + 1, acc =>
    let sub_block := pySlice image_bytes (sub_block_start + 1) (sub_block_start + (len + 1) + 1)
    let acc := acc ++ (sub_block.map byteBitsLSB).flatten
    let next_start := sub_block_start + (len + 1) + 1
    match pyByte image_bytes next_start with
    | .error e => .error e
    | .ok next_len => subBlockLoop image_bytes f next_start next_len acc

/-- Decoder-loop state of `extract_image`: bit cursor, code counter, code width,
and the three Python locals that are unbound until a Clear code has been seen. -/
structure LZWState where
  start_b : Nat
  count : Nat
  code_size : Nat
  first : Option Bool
  code_table : Option (List Entry)
  previous_code : Option Nat
  image_data : List Px
deriving DecidableEq

/-- Value of a code chunk: the source slices `code_size` bit characters, reverses
them and parses base 2, i.e. the first bit of the chunk is least significant. -/
def codeVal (bits : List Nat) : Nat :=
  bits.foldr (fun b acc => b + 2 * acc) 0

/-- The chunk of bits the next code is read from. -/
def readChunk (stream : List Nat) (s : LZWState) : List Nat :=
  (stream.drop s.start_b).take s.code_size

/-- The table built by the Clear-code branch: one singleton entry per global
colour, then the "CC" and "EOI" sentinel strings. -/
def resetTable (gc_map : List Color) : List Entry :=
  gc_map.map (fun c => Entry.colors [Px.color c]) ++ [Entry.sent "CC", Entry.sent "EOI"]

/-- `image_data.extend(entry)`: a pixel list extends element-wise, a sentinel
string extends with its characters. -/
def entryPixels : Entry → List Px
  | .colors cs => cs
  | .sent st => st.toList.map Px.ch

/-- `entry[0]`: IndexError on an empty entry; indexing a sentinel string gives
its first character. -/
def entryHead : Entry → Except PyError Px
  | .colors [] => .error .indexError
  | .colors (p :: _) => .ok p
  | .sent st =>
    match st.toList with
    | [] => .error .indexError
    | c :: _ => .ok (Px.ch c)

/-- `entry + [b]`: appending a singleton list to a sentinel string is the
TypeError `"CC" + [b]` raises in Python. -/
def entryAppend : Entry → Px → Except PyError Entry
  | .colors cs, b => .ok (.colors (cs ++ [b]))
  | .sent _, _ => .error .typeError

/-- `code_table[i]` with bound check. -/
def pyEntry (tbl : List Entry) (i : Nat) : Except PyError Entry :=
  if h : i < tbl.length then .ok (tbl.get ⟨i, h⟩) else .error .indexError

/-- The shared tail of every loop iteration of the source (lines 213-219): it runs
after the Clear branch too, incrementing the counter, recording the previous code
and possibly widening the code size. -/
def epilogue (s : LZWState) (current_code : Nat) : LZWState :=
  if s.count + 1 = 2 ^ (s.code_size - 1) then
    { s with count := 0, code_size := s.code_size + 1, previous_code := some current_code }
  else
    { s with count := s.count + 1, previous_code := some current_code }

/-- Result of one iteration of the `while True` decoder loop. -/
inductive StepRes where
  | cont (s : LZWState)
  | done (image_data : List Px)
  | fail (e : PyError)
deriving DecidableEq

/-- One iteration of the LZW decoder loop of `extract_image`, mirroring the source
branch for branch: slice a chunk (`int("", 2)` raising ValueError when it is
empty), then Clear / EOI / known code / unknown code, each followed by the shared
epilogue; Python name and bound errors are produced exactly where the interpreter
would raise them. -/
def lzwStep (stream : List Nat) (gc_map : List Color) (min_code_size cc_index : Nat)
    (s : LZWState) : StepRes :=
  let chunk := readChunk stream s
  if chunk = [] then .fail .valueError
  else
    let current_code := codeVal chunk
    let s1 : LZWState := { s with start_b := s.start_b + s.code_size }
    if current_code = cc_index then
      let sClear : LZWState := { s1 with code_table := some (resetTable gc_map), first := some true, count := 0, code_size := min_code_size + 1 }
      .cont (epilogue sClear current_code)
    else if current_code = cc_index + 1 then
      .done s1.image_data
    else
      match s1.code_table with
      | none => .fail .nameError
      | some tbl =>
        if hc : current_code < tbl.length then
          let current_color := tbl.get ⟨current_code, hc⟩
          let image_data := s1.image_data ++ entryPixels current_color
          match s1.first with
          | none => .fail .nameError
          | some true =>
            .cont (epilogue { s1 with image_data := image_data, first := some false } current_code)
          | some false =>
            match entryHead current_color with
            | .error e => .fail e
            | .ok b =>
              match s1.previous_code with
              | none => .fail .nameError
              | some previous_code =>
                match pyEntry tbl previous_code with
                | .error e => .fail e
                | .ok pe =>
                  match entryAppend pe b with
                  | .error e => .fail e
                  | .ok newE =>
                    .cont (epilogue { s1 with image_data := image_data, code_table := some (tbl ++ [newE]) } current_code)
        else
          match s1.previous_code with
          | none => .fail .nameError
          | some previous_code =>
            match pyEntry tbl previous_code with
            | .error e => .fail e
            | .ok pe =>
              match entryHead pe with
              | .error e => .fail e
              | .ok b =>
                match entryAppend pe b with
                | .error e => .fail e
                | .ok newE =>
                  .cont (epilogue { s1 with image_data := s1.image_data ++ entryPixels newE, code_table := some (tbl ++ [newE]) } current_code)

/-- The fuelled `while True` loop of the decoder. -/
def lzwLoop (stream : List Nat) (gc_map : List Color) (min_code_size cc_index : Nat) :
    Nat → LZWState → Except PyError (List Px)
  | 0, _ => .error .fuel
  | f + 1, s =>
    match lzwStep stream gc_map min_code_size cc_index s with
    | .done out => .ok out
    | .fail e => .error e
    | .cont s2 => lzwLoop stream gc_map min_code_size cc_index f s2

/-- The reshaping loop at the end of `extract_image`: 1-based enumeration,
a row is flushed whenever the index is a multiple of the width, and a final
partial row is left behind (dropped). -/
def reshapeGo (width : Nat) : Nat → List Px → List Px → List (List Px) → List (List Px)
  | _, [], _, image => image
  | index, c :: rest, row, image =>
    let row2 := row ++ [c]
    if index % width = 0 then reshapeGo width (index + 1) rest [] (image ++ [row2])
    else reshapeGo width (index + 1) rest row2 image

/-- The grid builder: `index % width` raises ZeroDivisionError on the first element
when the width is zero; an empty flat sequence never reaches the modulus. -/
def pyReshape (width : Nat) (image_data : List Px) : Except PyError (List (List Px)) :=
  match image_data with
  | [] => .ok []
  | _ :: _ =>
    if width = 0 then .error .zeroDivisionError
    else .ok (reshapeGo width 1 image_data [] [])

/-- `extract_image` from `src/gif.py`: locate the data region 10 bytes after the
separator, read the minimum code size, reassemble the sub-blocks into a bit
stream, run the LZW loop from the uninitialised state, and reshape by the
descriptor width. -/
def extract_image (data : List Nat) : Except PyError (List (List Px)) :=
  match extract_screen_descriptor data with
  | .error e => .error e
  | .ok sd =>
    let table_size := 3 * 2 ^ (sd.gc_size + 1)
    let search_start := 13 + table_size
    let start := (pyFind data 44 search_start + 10).toNat
    let image_bytes := data.drop start
    match pyByte image_bytes 0 with
    | .error e => .error e
    | .ok min_code_size =>
      match pyByte image_bytes 1 with
      | .error e => .error e
      | .ok len0 =>
        match subBlockLoop image_bytes (image_bytes.length + 1) 1 len0 [] with
        | .error e => .error e
        | .ok data_stream =>
          match extract_global_colour_table data with
          | .error e => .error e
          | .ok gc_map =>
            match lzwLoop data_stream gc_map min_code_size gc_map.length
                (data_stream.length + 2)
                { start_b := 0, count := 0, code_size := min_code_size + 1, first := none,
                  code_table := none, previous_code := none, image_data := [] } with
            | .error e => .error e
            | .ok image_data =>
              match extract_image_descriptor data with
              | .error e => .error e
              | .ok idesc => pyReshape idesc.width image_data

/-- Modelled from the spec (section 6): the published screen-descriptor packed-byte
layout, where bit 0 is the most significant bit of the byte.  Returns
(global-colour flag, colour resolution, sort flag, table-size exponent). -/
def specPackedScreenBits (b : Nat) : Nat × Nat × Nat × Nat :=
  (b / 128 % 2, b / 16 % 8, b / 8 % 2, b % 8)

/-- The synthetic minimal 2x2 four-colour image of the spec's round-trip property:
"GIF89a", screen 2x2, packed byte 0x91 (table-size exponent 1, so a 4-entry
global colour table), the table rows (10,20,30) (40,50,60) (70,80,90)
(100,110,120), the 0x2C separator, an image descriptor of width 2 and height 2,
minimum code size 2, and one 3-byte data sub-block holding the codes
Clear, 0, 1, 2, 3, EOI in the bit widths the decoder reads (3,3,3,3,4,4). -/
def c1Data : List Nat :=
  [71, 73, 70, 56, 57, 97, 2, 0, 2, 0, 145, 0, 0,
   10, 20, 30, 40, 50, 60, 70, 80, 90, 100, 110, 120,
   44, 0, 0, 0, 0, 2, 0, 2, 0, 0,
   2, 3, 68, 52, 5, 0]

/-- The grid `extract_image` produces for `c1Data`: the colour-table ENTRIES at
index positions [[0,1],[2,3]]. -/
def c1Grid : List (List Px) :=
  [[Px.color [10, 20, 30], Px.color [40, 50, 60]],
   [Px.color [70, 80, 90], Px.color [100, 110, 120]]]

/-- A 1x1 image whose single colour-table entry in use is (200,201,202); codes
Clear, 0, EOI. -/
def c2Data : List Nat :=
  [71, 73, 70, 56, 57, 97, 1, 0, 1, 0, 145, 0, 0,
   200, 201, 202, 7, 8, 9, 11, 12, 13, 14, 15, 16,
   44, 0, 0, 0, 0, 1, 0, 1, 0, 0,
   2, 2, 68, 1, 0]

/-- A 13-byte header whose packed screen-descriptor byte is 64 = 0b01000000:
`bin` drops the leading zero, so every bit range the source reads is shifted. -/
def c3Data : List Nat := [71, 73, 70, 56, 57, 97, 2, 0, 2, 0, 64, 7, 9]

/-- Codes Clear, 0, 7, EOI at width 3: after Clear and the first colour code the
table length is 6, so 7 is strictly greater than the table length. -/
def c5Data : List Nat :=
  [71, 73, 70, 56, 57, 97, 3, 0, 1, 0, 145, 0, 0,
   10, 20, 30, 40, 50, 60, 70, 80, 90, 100, 110, 120,
   44, 0, 0, 0, 0, 3, 0, 1, 0, 0,
   2, 2, 196, 11, 0]

/-- A data region whose first sub-block declares length 5 with only 2 payload
bytes left in the buffer. -/
def c6TruncData : List Nat :=
  [71, 73, 70, 56, 57, 97, 2, 0, 2, 0, 145, 0, 0,
   1, 2, 3, 4, 5, 6, 7, 8, 9, 10, 11, 12,
   44, 0, 0, 0, 0, 2, 0, 2, 0, 0,
   2, 5, 68, 52]

/-- A single 1-byte sub-block (byte 4) whose bit stream holds a Clear code and
colour codes but no EOI, so the bit cursor runs off the end. -/
def c6ExhaustData : List Nat :=
  [71, 73, 70, 56, 57, 97, 2, 0, 2, 0, 145, 0, 0,
   10, 20, 30, 40, 50, 60, 70, 80, 90, 100, 110, 120,
   44, 0, 0, 0, 0, 2, 0, 2, 0, 0,
   2, 1, 4, 0]

/-- Same pixel stream as `c1Data` (4 decoded pixels) but an image-descriptor
width of 3, which does not divide 4. -/
def c7Data : List Nat :=
  [71, 73, 70, 56, 57, 97, 2, 0, 2, 0, 145, 0, 0,
   10, 20, 30, 40, 50, 60, 70, 80, 90, 100, 110, 120,
   44, 0, 0, 0, 0, 3, 0, 2, 0, 0,
   2, 3, 68, 52, 5, 0]

/-- A 25-byte buffer with a valid screen descriptor and colour table but no 0x2C
byte anywhere at or after the search start (byte 8 is 0 so that the packed-byte
read `data[start + 9] = data[8]` of the not-found path parses). -/
def c8Data : List Nat :=
  [71, 73, 70, 56, 57, 97, 2, 0, 0, 1, 145, 0, 0,
   1, 2, 3, 4, 5, 6, 7, 8, 9, 10, 11, 12]

/-- An image whose first code (value 1) is neither Clear (4) nor EOI (5). -/
def c10BadData : List Nat :=
  [71, 73, 70, 56, 57, 97, 2, 0, 2, 0, 145, 0, 0,
   10, 20, 30, 40, 50, 60, 70, 80, 90, 100, 110, 120,
   44, 0, 0, 0, 0, 2, 0, 2, 0, 0,
   2, 1, 1, 0]

/-- An image whose first code is immediately EOI (5). -/
def c10EoiData : List Nat :=
  [71, 73, 70, 56, 57, 97, 2, 0, 2, 0, 145, 0, 0,
   10, 20, 30, 40, 50, 60, 70, 80, 90, 100, 110, 120,
   44, 0, 0, 0, 0, 2, 0, 2, 0, 0,
   2, 1, 5, 0]

/-- A four-colour global colour table used by the loop-level concrete statements. -/
def c4Gc : List Color := [[1, 1, 1], [2, 2, 2], [3, 3, 3], [4, 4, 4]]

/-- The decoder state `extract_image` starts its loop from, for a given minimum
code size: nothing bound, counters at zero. -/
def lzwInit (mcs : Nat) : LZWState :=
  { start_b := 0, count := 0, code_size := mcs + 1, first := none, code_table := none,
    previous_code := none, image_data := [] }

/-- The state one `lzwStep` after `lzwInit 2` reads a Clear code on `c4Gc`:
the shared epilogue has already pushed the counter to 1 and recorded the Clear
code itself as `previous_code`. -/
def c4After : LZWState :=
  { start_b := 3, count := 1, code_size := 3, first := some true,
    code_table := some (resetTable c4Gc), previous_code := some 4, image_data := [] }

/-- A mid-run decoder state used to witness the out-of-range (KwKwK) step:
table freshly reset over `c4Gc`, two codes read, previous code 0. -/
def c5WitState : LZWState :=
  { start_b := 0, count := 2, code_size := 3, first := some false,
    code_table := some (resetTable c4Gc), previous_code := some 0, image_data := [] }

/-- A post-Clear state about to read its first colour code. -/
def c9State : LZWState :=
  { start_b := 0, count := 2, code_size := 3, first := some true,
    code_table := some (resetTable c4Gc), previous_code := none, image_data := [] }

/-- The state one `lzwStep` after `c9State` reads code 0. -/
def c9After : LZWState :=
  { start_b := 3, count := 3, code_size := 3, first := some false,
    code_table := some (resetTable c4Gc), previous_code := some 0,
    image_data := [Px.color [1, 1, 1]] }

/-- Five equal pixels, used to witness the grid-builder property at width 2. -/
def c7Flat : List Px :=
  [Px.color [9], Px.color [9], Px.color [9], Px.color [9], Px.color [9]]

/-- A pixel that is a genuine entry of the global colour table. -/
def goodPx (gc_map : List Color) (px : Px) : Prop :=
  ∃ c ∈ gc_map, px = Px.color c

/-- A colour-sequence table entry all of whose pixels come from the table. -/
def goodEntry (gc_map : List Color) (en : Entry) : Prop :=
  ∃ cs, en = Entry.colors cs ∧ ∀ px ∈ cs, goodPx gc_map px

/-- Shape invariant of the decoder's code table: the reset prefix (colour
singletons, then the two sentinels at positions `gc_map.length` and
`gc_map.length + 1`) followed by appended colour entries drawn from the table. -/
def TblInv (gc_map : List Color) (tbl : List Entry) : Prop :=
  ∃ ext, tbl = resetTable gc_map ++ ext ∧ ∀ en ∈ ext, goodEntry gc_map en

/-- Loop invariant of the decoder state: everything already emitted is a table
entry, and the code table (when bound) is well shaped. -/
def StInv (gc_map : List Color) (s : LZWState) : Prop :=
  (∀ px ∈ s.image_data, goodPx gc_map px) ∧
  (∀ tbl, s.code_table = some tbl → TblInv gc_map tbl)

theorem resetTable_length (gc_map : List Color) :
    (resetTable gc_map).length = gc_map.length + 2 := by
  simp [resetTable]

theorem epilogue_image_data (s : LZWState) (c : Nat) :
    (epilogue s c).image_data = s.image_data := by
  unfold epilogue; split <;> rfl

theorem epilogue_code_table (s : LZWState) (c : Nat) :
    (epilogue s c).code_table = s.code_table := by
  unfold epilogue; split <;> rfl

theorem epilogue_first (s : LZWState) (c : Nat) :
    (epilogue s c).first = s.first := by
  unfold epilogue; split <;> rfl

theorem epilogue_start_b (s : LZWState) (c : Nat) :
    (epilogue s c).start_b = s.start_b := by
  unfold epilogue; split <;> rfl

theorem epilogue_previous_code (s : LZWState) (c : Nat) :
    (epilogue s c).previous_code = some c := by
  unfold epilogue; split <;> rfl

theorem epilogue_code_size (s : LZWState) (c : Nat) :
    (epilogue s c).code_size =
      (if s.count + 1 = 2 ^ (s.code_size - 1) then s.code_size + 1 else s.code_size) := by
  unfold epilogue; split <;> simp_all

theorem epilogue_count (s : LZWState) (c : Nat) :
    (epilogue s c).count =
      (if s.count + 1 = 2 ^ (s.code_size - 1) then 0 else s.count + 1) := by
  unfold epilogue; split <;> simp_all

theorem code_size_le_epilogue (s : LZWState) (c : Nat) :
    s.code_size ≤ (epilogue s c).code_size := by
  unfold epilogue; split <;> simp

theorem tblInv_reset (gc_map : List Color) : TblInv gc_map (resetTable gc_map) :=
  ⟨[], by simp, by simp⟩

theorem tblInv_append (gc_map : List Color) (tbl : List Entry) (en : Entry)
    (h : TblInv gc_map tbl) (hen : goodEntry gc_map en) : TblInv gc_map (tbl ++ [en]) := by
  obtain ⟨ext, rfl, hext⟩ := h
  refine ⟨ext ++ [en], by simp, ?_⟩
  intro x hx
  rcases List.mem_append.mp hx with h | h
  · exact hext x h
  · simp only [List.mem_singleton] at h
    subst h
    exact hen

theorem tblInv_get_spec (gc_map : List Color) (tbl : List Entry) (hinv : TblInv gc_map tbl)
    (i : Nat) (hi : i < tbl.length) :
    (i ≠ gc_map.length ∧ i ≠ gc_map.length + 1 → goodEntry gc_map (tbl.get ⟨i, hi⟩)) ∧
    (i = gc_map.length → tbl.get ⟨i, hi⟩ = Entry.sent "CC") ∧
    (i = gc_map.length + 1 → tbl.get ⟨i, hi⟩ = Entry.sent "EOI") := by
  obtain ⟨ext, rfl, hext⟩ := hinv
  have hrl : (resetTable gc_map).length = gc_map.length + 2 := resetTable_length gc_map
  have hml : (gc_map.map (fun c => Entry.colors [Px.color c])).length = gc_map.length := by
    simp
  rw [List.get_eq_getElem]
  by_cases h1 : i < gc_map.length
  · have hlt : i < (resetTable gc_map).length := by omega
    rw [List.getElem_append_left hlt]
    unfold resetTable
    have hlt2 : i < (gc_map.map (fun c => Entry.colors [Px.color c])).length := by omega
    rw [List.getElem_append_left hlt2, List.getElem_map]
    refine ⟨fun _ => ⟨[Px.color (gc_map.get ⟨i, h1⟩)], by simp, ?_⟩,
      fun he => absurd he (by omega), fun he => absurd he (by omega)⟩
    intro px hpx
    simp only [List.mem_singleton] at hpx
    subst hpx
    exact ⟨gc_map.get ⟨i, h1⟩, List.get_mem gc_map i h1, rfl⟩
  · by_cases h2 : i = gc_map.length
    · subst h2
      have hlt : gc_map.length < (resetTable gc_map).length := by omega
      rw [List.getElem_append_left hlt]
      unfold resetTable
      rw [List.getElem_append_right (by omega)]
      refine ⟨fun hc => absurd rfl hc.1, fun _ => ?_, fun he => absurd he (by omega)⟩
      have : gc_map.length - (gc_map.map (fun c => Entry.colors [Px.color c])).length = 0 := by
        omega
      simp [this]
    · by_cases h3 : i = gc_map.length + 1
      · subst h3
        have hlt : gc_map.length + 1 < (resetTable gc_map).length := by omega
        rw [List.getElem_append_left hlt]
        unfold resetTable
        rw [List.getElem_append_right (by omega)]
        refine ⟨fun hc => absurd rfl hc.2, fun he => absurd he (by omega), fun _ => ?_⟩
        have : gc_map.length + 1 - (gc_map.map (fun c => Entry.colors [Px.color c])).length = 1 := by
          omega
        simp [this]
      · have hge : (resetTable gc_map).length ≤ i := by omega
        rw [List.getElem_append_right hge]
        refine ⟨fun _ => hext _ (List.getElem_mem _), fun he => absurd he h2,
          fun he => absurd he h3⟩

theorem pyEntry_ok (tbl : List Entry) (i : Nat) (en : Entry)
    (h : pyEntry tbl i = Except.ok en) : ∃ hi : i < tbl.length, en = tbl.get ⟨i, hi⟩ := by
  unfold pyEntry at h
  split at h
  · rename_i hi
    cases h
    exact ⟨hi, rfl⟩
  · cases h

theorem entryHead_ok_good (gc_map : List Color) (en : Entry) (b : Px)
    (hg : goodEntry gc_map en) (h : entryHead en = Except.ok b) : goodPx gc_map b := by
  obtain ⟨cs, rfl, hcs⟩ := hg
  cases cs with
  | nil => cases h
  | cons p ps =>
    cases h
    exact hcs _ (by simp)

theorem entryAppend_ok (en : Entry) (b : Px) (newE : Entry)
    (h : entryAppend en b = Except.ok newE) :
    ∃ cs, en = Entry.colors cs ∧ newE = Entry.colors (cs ++ [b]) := by
  cases en with
  | colors cs =>
    cases h
    exact ⟨cs, rfl, rfl⟩
  | sent st => cases h

theorem goodEntry_pixels (gc_map : List Color) (en : Entry) (hg : goodEntry gc_map en) :
    ∀ px ∈ entryPixels en, goodPx gc_map px := by
  obtain ⟨cs, rfl, hcs⟩ := hg
  simpa [entryPixels] using hcs

theorem tblInv_entry_good (gc_map : List Color) (tbl : List Entry) (hinv : TblInv gc_map tbl)
    (pc : Nat) (pe : Entry) (csp : List Px)
    (hpe : pyEntry tbl pc = Except.ok pe) (hpe_colors : pe = Entry.colors csp) :
    goodEntry gc_map pe := by
  obtain ⟨hpcl, hpe_get⟩ := pyEntry_ok tbl pc pe hpe
  have hspec2 := tblInv_get_spec gc_map tbl hinv pc hpcl
  by_cases h1 : pc = gc_map.length
  · exfalso
    have hx := hspec2.2.1 h1
    rw [← hpe_get, hpe_colors] at hx
    exact Entry.noConfusion hx
  · by_cases h2 : pc = gc_map.length + 1
    · exfalso
      have hx := hspec2.2.2 h2
      rw [← hpe_get, hpe_colors] at hx
      exact Entry.noConfusion hx
    · rw [hpe_get]
      exact hspec2.1 ⟨h1, h2⟩

theorem goodEntry_append (gc_map : List Color) (pe : Entry) (b : Px) (newE : Entry)
    (hg : goodEntry gc_map pe) (hb : goodPx gc_map b)
    (happ : entryAppend pe b = Except.ok newE) : goodEntry gc_map newE := by
  obtain ⟨csp, hpe_colors, hnew⟩ := entryAppend_ok pe b newE happ
  obtain ⟨csg, hpeg, hcsg⟩ := hg
  rw [hpe_colors] at hpeg
  cases hpeg
  refine ⟨csp ++ [b], hnew, ?_⟩
  intro px hpx
  rcases List.mem_append.mp hpx with h | h
  · exact hcsg px h
  · simp only [List.mem_singleton] at h
    subst h
    exact hb

theorem lzwStep_inv (stream : List Nat) (gc_map : List Color) (min_code_size : Nat)
    (s s2 : LZWState) (hs : StInv gc_map s)
    (hstep : lzwStep stream gc_map min_code_size gc_map.length s = StepRes.cont s2) :
    StInv gc_map s2 := by
  obtain ⟨himg, htbl⟩ := hs
  by_cases hch : readChunk stream s = []
  · rw [lzwStep] at hstep
    simp [hch] at hstep
  · rw [lzwStep] at hstep
    simp only [if_neg hch] at hstep
    by_cases hcc : codeVal (readChunk stream s) = gc_map.length
    · rw [if_pos hcc] at hstep
      rw [StepRes.cont.injEq] at hstep
      subst hstep
      refine ⟨?_, ?_⟩
      · rw [epilogue_image_data]
        exact himg
      · intro t ht
        rw [epilogue_code_table] at ht
        have ht2 : some (resetTable gc_map) = some t := ht
        cases ht2
        exact tblInv_reset gc_map
    · rw [if_neg hcc] at hstep
      by_cases hcc1 : codeVal (readChunk stream s) = gc_map.length + 1
      · rw [if_pos hcc1] at hstep
        exact StepRes.noConfusion hstep
      · rw [if_neg hcc1] at hstep
        cases hso : s.code_table with
        | none =>
          rw [hso] at hstep
          exact StepRes.noConfusion hstep
        | some tbl =>
          rw [hso] at hstep
          dsimp only at hstep
          have hinv := htbl tbl hso
          by_cases hlt : codeVal (readChunk stream s) < tbl.length
          · rw [dif_pos hlt] at hstep
            have hspec := tblInv_get_spec gc_map tbl hinv (codeVal (readChunk stream s)) hlt
            have hcur : goodEntry gc_map (tbl.get ⟨codeVal (readChunk stream s), hlt⟩) :=
              hspec.1 ⟨hcc, hcc1⟩
            cases hf : s.first with
            | none =>
              rw [hf] at hstep
              exact StepRes.noConfusion hstep
            | some fb =>
              rw [hf] at hstep
              cases fb with
              | true =>
                dsimp only at hstep
                rw [StepRes.cont.injEq] at hstep
                subst hstep
                refine ⟨?_, ?_⟩
                · rw [epilogue_image_data]
                  intro px hpx
                  have hpx2 : px ∈ s.image_data ++
                      entryPixels (tbl.get ⟨codeVal (readChunk stream s), hlt⟩) := hpx
                  rcases List.mem_append.mp hpx2 with h | h
                  · exact himg px h
                  · exact goodEntry_pixels gc_map _ hcur px h
                · intro t ht
                  rw [epilogue_code_table] at ht
                  have ht2 : some tbl = some t := ht
                  cases ht2
                  exact hinv
              | false =>
                dsimp only at hstep
                cases hhd : entryHead (tbl.get ⟨codeVal (readChunk stream s), hlt⟩) with
                | error e =>
                  rw [hhd] at hstep
                  exact StepRes.noConfusion hstep
                | ok b =>
                  rw [hhd] at hstep
                  dsimp only at hstep
                  cases hpc : s.previous_code with
                  | none =>
                    rw [hpc] at hstep
                    exact StepRes.noConfusion hstep
                  | some pc =>
                    rw [hpc] at hstep
                    dsimp only at hstep
                    cases hpe : pyEntry tbl pc with
                    | error e =>
                      rw [hpe] at hstep
                      exact StepRes.noConfusion hstep
                    | ok pe =>
                      rw [hpe] at hstep
                      dsimp only at hstep
                      cases happ : entryAppend pe b with
                      | error e =>
                        rw [happ] at hstep
                        exact StepRes.noConfusion hstep
                      | ok newE =>
                        rw [happ] at hstep
                        dsimp only at hstep
                        rw [StepRes.cont.injEq] at hstep
                        subst hstep
                        obtain ⟨csp, hpe_colors, hnew⟩ := entryAppend_ok pe b newE happ
                        have hpe_good : goodEntry gc_map pe :=
                          tblInv_entry_good gc_map tbl hinv pc pe csp hpe hpe_colors
                        have hb : goodPx gc_map b :=
                          entryHead_ok_good gc_map _ b hcur hhd
                        have hnew_good : goodEntry gc_map newE :=
                          goodEntry_append gc_map pe b newE hpe_good hb happ
                        refine ⟨?_, ?_⟩
                        · rw [epilogue_image_data]
                          intro px hpx
                          have hpx2 : px ∈ s.image_data ++
                              entryPixels (tbl.get ⟨codeVal (readChunk stream s), hlt⟩) := hpx
                          rcases List.mem_append.mp hpx2 with h | h
                          · exact himg px h
                          · exact goodEntry_pixels gc_map _ hcur px h
                        · intro t ht
                          rw [epilogue_code_table] at ht
                          have ht2 : some (tbl ++ [newE]) = some t := ht
                          cases ht2
                          exact tblInv_append gc_map tbl newE hinv hnew_good
          · rw [dif_neg hlt] at hstep
            cases hpc : s.previous_code with
            | none =>
              rw [hpc] at hstep
              exact StepRes.noConfusion hstep
            | some pc =>
              rw [hpc] at hstep
              dsimp only at hstep
              cases hpe : pyEntry tbl pc with
              | error e =>
                rw [hpe] at hstep
                exact StepRes.noConfusion hstep
              | ok pe =>
                rw [hpe] at hstep
                dsimp only at hstep
                cases hhd : entryHead pe with
                | error e =>
                  rw [hhd] at hstep
                  exact StepRes.noConfusion hstep
                | ok b =>
                  rw [hhd] at hstep
                  dsimp only at hstep
                  cases happ : entryAppend pe b with
                  | error e =>
                    rw [happ] at hstep
                    exact StepRes.noConfusion hstep
                  | ok newE =>
                    rw [happ] at hstep
                    dsimp only at hstep
                    rw [StepRes.cont.injEq] at hstep
                    subst hstep
                    obtain ⟨csp, hpe_colors, hnew⟩ := entryAppend_ok pe b newE happ
                    have hpe_good : goodEntry gc_map pe :=
                      tblInv_entry_good gc_map tbl hinv pc pe csp hpe hpe_colors
                    have hb : goodPx gc_map b :=
                      entryHead_ok_good gc_map pe b hpe_good hhd
                    have hnew_good : goodEntry gc_map newE :=
                      goodEntry_append gc_map pe b newE hpe_good hb happ
                    refine ⟨?_, ?_⟩
                    · rw [epilogue_image_data]
                      intro px hpx
                      have hpx2 : px ∈ s.image_data ++ entryPixels newE := hpx
                      rcases List.mem_append.mp hpx2 with h | h
                      · exact himg px h
                      · exact goodEntry_pixels gc_map newE hnew_good px h
                    · intro t ht
                      rw [epilogue_code_table] at ht
                      have ht2 : some (tbl ++ [newE]) = some t := ht
                      cases ht2
                      exact tblInv_append gc_map tbl newE hinv hnew_good

theorem lzwStep_done (stream : List Nat) (gc_map : List Color) (mcs cc : Nat)
    (s : LZWState) (o : List Px)
    (h : lzwStep stream gc_map mcs cc s = StepRes.done o) : o = s.image_data := by
  by_cases hch : readChunk stream s = []
  · rw [lzwStep] at h
    simp [hch] at h
  · rw [lzwStep] at h
    simp only [if_neg hch] at h
    by_cases hcc : codeVal (readChunk stream s) = cc
    · rw [if_pos hcc] at h
      exact StepRes.noConfusion h
    · rw [if_neg hcc] at h
      by_cases hcc1 : codeVal (readChunk stream s) = cc + 1
      · rw [if_pos hcc1] at h
        cases h
        rfl
      · rw [if_neg hcc1] at h
        repeat (any_goals (split at h))
        any_goals exact StepRes.noConfusion h

theorem lzwLoop_good (stream : List Nat) (gc_map : List Color) (min_code_size : Nat) :
    ∀ (f : Nat) (s : LZWState) (out : List Px), StInv gc_map s →
      lzwLoop stream gc_map min_code_size gc_map.length f s = Except.ok out →
      ∀ px ∈ out, goodPx gc_map px := by
  intro f
  induction f with
  | zero =>
    intro s out _ h
    cases h
  | succ n ih =>
    intro s out hs h
    rw [lzwLoop] at h
    cases hstep : lzwStep stream gc_map min_code_size gc_map.length s with
    | done o =>
      rw [hstep] at h
      try dsimp only at h
      cases h
      intro px hpx
      have h2 := lzwStep_done stream gc_map min_code_size gc_map.length s _ hstep
      rw [h2] at hpx
      exact hs.1 px hpx
    | fail e =>
      rw [hstep] at h
      cases h
    | cont s3 =>
      rw [hstep] at h
      try dsimp only at h
      exact ih s3 out (lzwStep_inv stream gc_map min_code_size s s3 hs hstep) h

theorem reshapeGo_mem (width : Nat) :
    ∀ (rest : List Px) (idx : Nat) (row : List Px) (image : List (List Px))
      (r : List Px) (px : Px),
      r ∈ reshapeGo width idx rest row image → px ∈ r →
      px ∈ rest ∨ px ∈ row ∨ ∃ r2 ∈ image, px ∈ r2 := by
  intro rest
  induction rest with
  | nil =>
    intro idx row image r px hr hpx
    rw [reshapeGo] at hr
    exact Or.inr (Or.inr ⟨r, hr, hpx⟩)
  | cons c rest2 ih =>
    intro idx row image r px hr hpx
    rw [reshapeGo] at hr
    try dsimp only at hr
    by_cases hix : idx % width = 0
    · rw [if_pos hix] at hr
      rcases ih (idx + 1) [] (image ++ [row ++ [c]]) r px hr hpx with h | h | ⟨r2, hr2, hpx2⟩
      · exact Or.inl (by simp [h])
      · simp at h
      · rcases List.mem_append.mp hr2 with h2 | h2
        · exact Or.inr (Or.inr ⟨r2, h2, hpx2⟩)
        · simp only [List.mem_singleton] at h2
          subst h2
          rcases List.mem_append.mp hpx2 with h3 | h3
          · exact Or.inr (Or.inl h3)
          · simp only [List.mem_singleton] at h3
            subst h3
            exact Or.inl (by simp)
    · rw [if_neg hix] at hr
      rcases ih (idx + 1) (row ++ [c]) image r px hr hpx with h | h | hh
      · exact Or.inl (by simp [h])
      · rcases List.mem_append.mp h with h3 | h3
        · exact Or.inr (Or.inl h3)
        · simp only [List.mem_singleton] at h3
          subst h3
          exact Or.inl (by simp)
      · exact Or.inr (Or.inr hh)

theorem pyReshape_mem (width : Nat) (xs : List Px) (grid : List (List Px))
    (h : pyReshape width xs = Except.ok grid) :
    ∀ r ∈ grid, ∀ px ∈ r, px ∈ xs := by
  intro r hr px hpx
  cases xs with
  | nil =>
    rw [pyReshape] at h
    cases h
    simp at hr
  | cons x xs2 =>
    rw [pyReshape] at h
    try dsimp only at h
    by_cases hw : width = 0
    · rw [if_pos hw] at h
      cases h
    · rw [if_neg hw] at h
      cases h
      rcases reshapeGo_mem width (x :: xs2) 1 [] [] r px hr hpx with h2 | h2 | ⟨r2, hr2, _⟩
      · exact h2
      · simp at h2
      · simp at hr2

/-- C1 (amended): decoding the synthetic minimal 2x2 four-colour image through the
full pipeline yields the 2x2 grid whose pixels are the global-colour-table
ENTRIES at index positions [[0,1],[2,3]] — the decoder emits each pixel as the
full RGB triple looked up in the table, not as a bare index. -/
theorem C1_decodes_to_table_entries :
    extract_image c1Data = Except.ok c1Grid ∧
    extract_global_colour_table c1Data =
      Except.ok [[10, 20, 30], [40, 50, 60], [70, 80, 90], [100, 110, 120]] :=
  ⟨rfl, rfl⟩

/-- C1 (counterexample): the claim's literal grid `[[0,1],[2,3]]` is not what
`extract_image` returns on the synthetic image.  The pixels of the actual result
are the table's RGB triples; rendered in the output type, the literal grid of
bare indices (a cell holding just the number i) differs from every cell of the
actual grid, so the two grids are unequal. -/
theorem C1_counterexample :
    extract_image c1Data = Except.ok c1Grid ∧
    c1Grid ≠ [[Px.color [0], Px.color [1]], [Px.color [2], Px.color [3]]] :=
  ⟨rfl, by decide⟩

/-- C2 (counterexample): on a concrete 1x1 image the single emitted element is the
table entry (200,201,202) — an RGB triple, not a colour index below the table
size 4.  No cell of the output is the rendering of any of the indices 0..3. -/
theorem C2_counterexample :
    extract_image c2Data = Except.ok [[Px.color [200, 201, 202]]] ∧
    Px.color [200, 201, 202] ≠ Px.color [0] ∧ Px.color [200, 201, 202] ≠ Px.color [1] ∧
    Px.color [200, 201, 202] ≠ Px.color [2] ∧ Px.color [200, 201, 202] ≠ Px.color [3] :=
  ⟨rfl, by decide, by decide, by decide, by decide⟩

/-- C2 (amended): whenever `extract_image` succeeds, every pixel of the returned
grid — every element the LZW loop emitted into the flat sequence — is an entry
of the extracted global colour table (equivalently, its position in that table is
a valid index in [0, table size)); the decoder emits the table entries
themselves, not bare numeric indices. -/
theorem C2_emitted_pixels_are_table_entries (data : List Nat) (grid : List (List Px))
    (h : extract_image data = Except.ok grid) :
    ∃ gc_map, extract_global_colour_table data = Except.ok gc_map ∧
      ∀ row ∈ grid, ∀ px ∈ row, ∃ c ∈ gc_map, px = Px.color c := by
  rw [extract_image] at h
  cases hsd : extract_screen_descriptor data with
  | error e =>
    rw [hsd] at h
    cases h
  | ok sd =>
    rw [hsd] at h
    try dsimp only at h
    set ib : List Nat := data.drop ((pyFind data 44 (13 + 3 * 2 ^ (sd.gc_size + 1)) + 10).toNat)
      with hib
    cases hmc : pyByte ib 0 with
    | error e =>
      rw [hmc] at h
      cases h
    | ok min_code_size =>
      rw [hmc] at h
      try dsimp only at h
      cases hl0 : pyByte ib 1 with
      | error e =>
        rw [hl0] at h
        cases h
      | ok len0 =>
        rw [hl0] at h
        try dsimp only at h
        cases hsb : subBlockLoop ib (ib.length + 1) 1 len0 [] with
        | error e =>
          rw [hsb] at h
          cases h
        | ok ds =>
          rw [hsb] at h
          try dsimp only at h
          cases hgc : extract_global_colour_table data with
          | error e =>
            rw [hgc] at h
            cases h
          | ok gc_map =>
            rw [hgc] at h
            try dsimp only at h
            cases hlz : lzwLoop ds gc_map min_code_size gc_map.length (ds.length + 2)
                { start_b := 0, count := 0, code_size := min_code_size + 1, first := none,
                  code_table := none, previous_code := none, image_data := [] } with
            | error e =>
              rw [hlz] at h
              cases h
            | ok flat =>
              rw [hlz] at h
              try dsimp only at h
              cases hid : extract_image_descriptor data with
              | error e =>
                rw [hid] at h
                cases h
              | ok idesc =>
                rw [hid] at h
                try dsimp only at h
                refine ⟨gc_map, rfl, ?_⟩
                intro row hrow px hpx
                have hinit : StInv gc_map
                    { start_b := 0, count := 0, code_size := min_code_size + 1, first := none,
                      code_table := none, previous_code := none, image_data := [] } := by
                  refine ⟨?_, ?_⟩
                  · intro p hp
                    exact absurd hp (List.not_mem_nil p)
                  · intro t ht
                    cases ht
                have hflat : ∀ p ∈ flat, goodPx gc_map p :=
                  lzwLoop_good ds gc_map min_code_size (ds.length + 2) _ flat hinit hlz
                exact hflat px (pyReshape_mem idesc.width flat grid h row hrow px hpx)

/-- Witness for C2: the synthetic 2x2 image of C1, whose four pixels are all
rows of its colour table. -/
theorem C2_witness :
    ∃ gc_map, extract_global_colour_table c1Data = Except.ok gc_map ∧
      ∀ row ∈ c1Grid, ∀ px ∈ row, ∃ c ∈ gc_map, px = Px.color c :=
  C2_emitted_pixels_are_table_entries c1Data c1Grid rfl

/-- C3: with the packed screen-descriptor byte 64 = 0b01000000, the source reads
`bin(64)[2:] = "1000000"` (7 characters, the leading zero dropped), so it returns
global-colour flag 1, colour resolution 0, sort flag 0, size exponent 0, while the
published layout of that byte is flag 0, resolution 4, sort 0, exponent 0 — the
function contradicts its own docstring ("values ... as specified in the GIF
documentation") for every byte below 128. -/
theorem C3_packed_byte_misread :
    extract_screen_descriptor c3Data = Except.ok ⟨2, 2, 1, 0, 0, 0, 7, 9⟩ ∧
    specPackedScreenBits 64 = (0, 4, 0, 0) :=
  ⟨rfl, rfl⟩

/-- C4 (counterexample): one step from the initial state reading a Clear code
(value 4, table of 4 colours, minimum code size 2) leaves the codes-read counter
at 1, not 0: the Clear branch sets it to 0 but the shared epilogue of the loop
body increments it afterwards. -/
theorem C4_counterexample :
    lzwStep [0, 0, 1] c4Gc 2 4 (lzwInit 2) = StepRes.cont c4After ∧
    c4After.count = 1 ∧ (1 : Nat) ≠ 0 :=
  ⟨rfl, rfl, by decide⟩

/-- C5 (counterexample): in `c5Data` the third code is 7, strictly greater than
the current table length 6, yet the decode does not fail with any corruption
error: the source's `else` branch treats every not-in-table code with the KwKwK
rule, so the pipeline succeeds and emits (previous entry + its first colour). -/
theorem C5_counterexample :
    extract_image c5Data =
      Except.ok [[Px.color [10, 20, 30], Px.color [10, 20, 30], Px.color [10, 20, 30]]] :=
  rfl

/-- C6 (counterexample): a sub-block declaring 5 payload bytes with only 2 left
does not produce a typed TruncatedStream value — no such error exists in the
source; the decode dies with the uncaught IndexError of reading the next length
byte past the buffer (the Python-level analogue of a panic). -/
theorem C6_counterexample :
    extract_image c6TruncData = Except.error PyError.indexError :=
  rfl

/-- C7 (counterexample): 4 decoded pixels against a declared width of 3 do not
yield a DimensionMismatch error — no such error exists in the source; the grid
builder silently drops the trailing partial row and returns the single full row. -/
theorem C7_counterexample :
    extract_image c7Data =
      Except.ok [[Px.color [10, 20, 30], Px.color [40, 50, 60], Px.color [70, 80, 90]]] :=
  rfl

/-- C8: with no 0x2C byte at or after the search start, `find` returns -1 and
`extract_image_descriptor` does not fail — it returns field values read from the
offsets that -1 induces (left from bytes 0-1 of the file, etc.), contradicting
its docstring's promise of values "as specified in the GIF documentation". -/
theorem C8_missing_separator_returns_values :
    pyFind c8Data 44 25 = -1 ∧
    extract_image_descriptor c8Data = Except.ok ⟨18759, 14406, 24889, 2, 0, 0, 0, 0, 0⟩ :=
  ⟨rfl, rfl⟩

/-- C4 (amended): a continuing step that reads the Clear code rebuilds the code
table to (colour singletons + the two sentinels), so its length is the colour
count plus 2, emits nothing, and sets the "first after reset" flag; but because
the shared epilogue also runs, the codes-read counter ends at 1 (not 0) for any
minimum code size of at least 1, and for minimum code size 0 the epilogue fires
the width rule at once, leaving counter 0 and code width minimum+2. -/
theorem C4_state_after_clear (stream : List Nat) (gc_map : List Color)
    (min_code_size : Nat) (s s2 : LZWState)
    (hclear : codeVal (readChunk stream s) = gc_map.length)
    (hstep : lzwStep stream gc_map min_code_size gc_map.length s = StepRes.cont s2) :
    s2.code_table = some (resetTable gc_map) ∧
    (resetTable gc_map).length = gc_map.length + 2 ∧
    s2.image_data = s.image_data ∧
    s2.first = some true ∧
    s2.count = (if min_code_size = 0 then 0 else 1) ∧
    s2.code_size = (if min_code_size = 0 then min_code_size + 2 else min_code_size + 1) := by
  by_cases hch : readChunk stream s = []
  · rw [lzwStep] at hstep
    simp [hch] at hstep
  · rw [lzwStep] at hstep
    simp only [if_neg hch] at hstep
    rw [if_pos hclear] at hstep
    rw [StepRes.cont.injEq] at hstep
    subst hstep
    cases min_code_size with
    | zero =>
      simp [epilogue, resetTable_length]
    | succ n =>
      have h2 : (1 : Nat) ≠ 2 ^ (n + 1) := by
        have := Nat.one_lt_two_pow_iff.mpr (Nat.succ_ne_zero n)
        omega
      simp [epilogue, resetTable_length, h2]

/-- Witness for C4: the Clear step on the concrete four-colour table with minimum
code size 2. -/
theorem C4_witness :
    c4After.code_table = some (resetTable c4Gc) ∧
    (resetTable c4Gc).length = c4Gc.length + 2 ∧
    c4After.image_data = (lzwInit 2).image_data ∧
    c4After.first = some true ∧
    c4After.count = (if (2 : Nat) = 0 then 0 else 1) ∧
    c4After.code_size = (if (2 : Nat) = 0 then 2 + 2 else 2 + 1) :=
  C4_state_after_clear [0, 0, 1] c4Gc 2 (lzwInit 2) c4After (by decide) (by decide)

/-- C5 (amended): any code whose value is at least the current table length —
whether exactly equal to it (the KwKwK case) or strictly greater — is handled by
the same `else` branch: the decoder emits (previous entry + its first element),
appends that same sequence to the table, and continues; no corruption error of
any kind is raised. -/
theorem C5_out_of_range_is_kwkwk (stream : List Nat) (gc_map : List Color)
    (min_code_size : Nat) (s : LZWState) (tbl : List Entry) (pc : Nat) (p : Px) (ps : List Px)
    (htbl : s.code_table = some tbl)
    (hch : readChunk stream s ≠ [])
    (hge : tbl.length ≤ codeVal (readChunk stream s))
    (hne1 : codeVal (readChunk stream s) ≠ gc_map.length)
    (hne2 : codeVal (readChunk stream s) ≠ gc_map.length + 1)
    (hpc : s.previous_code = some pc)
    (hpe : pyEntry tbl pc = Except.ok (Entry.colors (p :: ps))) :
    lzwStep stream gc_map min_code_size gc_map.length s =
      StepRes.cont (epilogue { s with start_b := s.start_b + s.code_size, image_data := s.image_data ++ ((p :: ps) ++ [p]), code_table := some (tbl ++ [Entry.colors ((p :: ps) ++ [p])]) } (codeVal (readChunk stream s))) := by
  rw [lzwStep]
  simp only [if_neg hch, if_neg hne1, if_neg hne2, htbl]
  rw [dif_neg (by omega)]
  simp [hpc, hpe, entryHead, entryAppend, entryPixels]

/-- Witness for C5: code 7 read against a table of length 6. -/
theorem C5_witness :
    lzwStep [1, 1, 1] c4Gc 2 c4Gc.length c5WitState =
      StepRes.cont (epilogue { c5WitState with start_b := c5WitState.start_b + c5WitState.code_size, image_data := c5WitState.image_data ++ (([Px.color [1, 1, 1]]) ++ [Px.color [1, 1, 1]]), code_table := some (resetTable c4Gc ++ [Entry.colors ([Px.color [1, 1, 1]] ++ [Px.color [1, 1, 1]])]) } (codeVal (readChunk [1, 1, 1] c5WitState))) :=
  C5_out_of_range_is_kwkwk [1, 1, 1] c4Gc 2 c5WitState (resetTable c4Gc) 0
    (Px.color [1, 1, 1]) [] rfl (by decide) (by decide) (by decide) (by decide) rfl rfl

/-- C9: across any continuing step that does not read the Clear code, the code
width never decreases, and it is incremented exactly when the incremented
codes-read counter reaches 2 ^ (code width - 1), the counter then resetting to 0
— so between two consecutive Clear codes the width is monotonically
non-decreasing. -/
theorem C9_code_width_monotone (stream : List Nat) (gc_map : List Color)
    (min_code_size : Nat) (s s2 : LZWState)
    (hnc : codeVal (readChunk stream s) ≠ gc_map.length)
    (hstep : lzwStep stream gc_map min_code_size gc_map.length s = StepRes.cont s2) :
    s.code_size ≤ s2.code_size ∧
    s2.code_size = (if s.count + 1 = 2 ^ (s.code_size - 1) then s.code_size + 1 else s.code_size) ∧
    s2.count = (if s.count + 1 = 2 ^ (s.code_size - 1) then 0 else s.count + 1) := by
  by_cases hch : readChunk stream s = []
  · rw [lzwStep] at hstep
    simp [hch] at hstep
  · rw [lzwStep] at hstep
    simp only [if_neg hch, if_neg hnc] at hstep
    repeat (any_goals (split at hstep))
    any_goals exact StepRes.noConfusion hstep
    all_goals rw [StepRes.cont.injEq] at hstep
    all_goals subst hstep
    all_goals refine ⟨?_, by rw [epilogue_code_size], by rw [epilogue_count]⟩
    all_goals rw [epilogue_code_size]
    all_goals split
    all_goals simp

/-- Witness for C9: the first colour code after a reset, not yet at the widening
threshold. -/
theorem C9_witness :
    c9State.code_size ≤ c9After.code_size ∧
    c9After.code_size = (if c9State.count + 1 = 2 ^ (c9State.code_size - 1) then c9State.code_size + 1 else c9State.code_size) ∧
    c9After.count = (if c9State.count + 1 = 2 ^ (c9State.code_size - 1) then 0 else c9State.count + 1) :=
  C9_code_width_monotone [0, 0, 0] c4Gc 2 c9State c9After (by decide) (by decide)

/-- C10: the decoder's code table is initialised only by the Clear branch, so from
the initial state (all three decoder locals unbound) any first code that is
neither Clear nor EOI hits the unbound `code_table` and fails with the
interpreter's NameError; concretely, `c10BadData` (first code 1) dies with
NameError through the whole pipeline, while an immediate EOI (`c10EoiData`)
terminates at once and yields the empty image. -/
theorem C10_first_code_precondition (stream : List Nat) (gc_map : List Color)
    (min_code_size cc_index : Nat) (s : LZWState)
    (hct : s.code_table = none)
    (hch : readChunk stream s ≠ [])
    (h1 : codeVal (readChunk stream s) ≠ cc_index)
    (h2 : codeVal (readChunk stream s) ≠ cc_index + 1) :
    lzwStep stream gc_map min_code_size cc_index s = StepRes.fail PyError.nameError ∧
    extract_image c10BadData = Except.error PyError.nameError ∧
    extract_image c10EoiData = Except.ok [] := by
  refine ⟨?_, rfl, rfl⟩
  rw [lzwStep]
  simp only [if_neg hch, if_neg h1, if_neg h2, hct]

/-- Witness for C10: first code 1 against Clear code 4 from the initial state. -/
theorem C10_witness :
    lzwStep [1, 0, 0] c4Gc 2 4 (lzwInit 2) = StepRes.fail PyError.nameError ∧
    extract_image c10BadData = Except.error PyError.nameError ∧
    extract_image c10EoiData = Except.ok [] :=
  C10_first_code_precondition [1, 0, 0] c4Gc 2 4 (lzwInit 2) rfl (by decide) (by decide)
    (by decide)

theorem pyByte_ne_fuel (data : List Nat) (i : Nat) :
    pyByte data i ≠ Except.error PyError.fuel := by
  unfold pyByte
  split <;> simp

theorem pyByte_ok_lt (data : List Nat) (i v : Nat) (h : pyByte data i = Except.ok v) :
    i < data.length := by
  unfold pyByte at h
  split at h
  · assumption
  · cases h

theorem bitsVal_ne_fuel (bits : List Nat) : bitsVal bits ≠ Except.error PyError.fuel := by
  unfold bitsVal
  split <;> simp

theorem extract_screen_descriptor_ne_fuel (data : List Nat) :
    extract_screen_descriptor data ≠ Except.error PyError.fuel := by
  intro h
  unfold extract_screen_descriptor at h
  try dsimp only at h
  cases h11 : pyByte data 11 with
  | error e =>
    rw [h11] at h
    cases h
    exact pyByte_ne_fuel _ _ h11
  | ok bcolour =>
    rw [h11] at h
    try dsimp only at h
    cases h12 : pyByte data 12 with
    | error e =>
      rw [h12] at h
      cases h
      exact pyByte_ne_fuel _ _ h12
    | ok aspect =>
      rw [h12] at h
      try dsimp only at h
      cases h10 : pyByte data 10 with
      | error e =>
        rw [h10] at h
        cases h
        exact pyByte_ne_fuel _ _ h10
      | ok pb =>
        rw [h10] at h
        try dsimp only at h
        cases hgf : pyByte (binDigits pb) 0 with
        | error e =>
          rw [hgf] at h
          cases h
          exact pyByte_ne_fuel _ _ hgf
        | ok gc_fl =>
          rw [hgf] at h
          try dsimp only at h
          cases hcr : bitsVal (pySlice (binDigits pb) 1 4) with
          | error e =>
            rw [hcr] at h
            cases h
            exact bitsVal_ne_fuel _ hcr
          | ok cr =>
            rw [hcr] at h
            try dsimp only at h
            cases hsf : pyByte (binDigits pb) 4 with
            | error e =>
              rw [hsf] at h
              cases h
              exact pyByte_ne_fuel _ _ hsf
            | ok sort_fl =>
              rw [hsf] at h
              try dsimp only at h
              cases hgs : bitsVal (pySlice (binDigits pb) 5 8) with
              | error e =>
                rw [hgs] at h
                cases h
                exact bitsVal_ne_fuel _ hgs
              | ok gc_size =>
                rw [hgs] at h
                try dsimp only at h
                cases h

theorem extract_image_descriptor_ne_fuel (data : List Nat) :
    extract_image_descriptor data ≠ Except.error PyError.fuel := by
  intro h
  unfold extract_image_descriptor at h
  cases hsd : extract_screen_descriptor data with
  | error e =>
    rw [hsd] at h
    cases h
    exact extract_screen_descriptor_ne_fuel data hsd
  | ok sd =>
    rw [hsd] at h
    try dsimp only at h
    cases hpb : pyByte data (pyFind data 44 (13 + 3 * 2 ^ (sd.gc_size + 1)) + 9).toNat with
    | error e =>
      rw [hpb] at h
      cases h
      exact pyByte_ne_fuel _ _ hpb
    | ok pb =>
      rw [hpb] at h
      try dsimp only at h
      by_cases hz : binDigits pb = [0]
      · rw [if_pos hz] at h
        cases h
      · rw [if_neg hz] at h
        cases h0 : pyByte (binDigits pb) 0 with
        | error e =>
          rw [h0] at h
          cases h
          exact pyByte_ne_fuel _ _ h0
        | ok lc_fl =>
          rw [h0] at h
          try dsimp only at h
          cases h1 : pyByte (binDigits pb) 1 with
          | error e =>
            rw [h1] at h
            cases h
            exact pyByte_ne_fuel _ _ h1
          | ok itl_fl =>
            rw [h1] at h
            try dsimp only at h
            cases h2 : pyByte (binDigits pb) 2 with
            | error e =>
              rw [h2] at h
              cases h
              exact pyByte_ne_fuel _ _ h2
            | ok sort_fl =>
              rw [h2] at h
              try dsimp only at h
              cases h3 : bitsVal (pySlice (binDigits pb) 2 4) with
              | error e =>
                rw [h3] at h
                cases h
                exact bitsVal_ne_fuel _ h3
              | ok res =>
                rw [h3] at h
                try dsimp only at h
                cases h4 : bitsVal (pySlice (binDigits pb) 4 7) with
                | error e =>
                  rw [h4] at h
                  cases h
                  exact bitsVal_ne_fuel _ h4
                | ok lc_size =>
                  rw [h4] at h
                  try dsimp only at h
                  cases h

theorem extract_global_colour_table_ne_fuel (data : List Nat) :
    extract_global_colour_table data ≠ Except.error PyError.fuel := by
  intro h
  unfold extract_global_colour_table at h
  cases hsd : extract_screen_descriptor data with
  | error e =>
    rw [hsd] at h
    cases h
    exact extract_screen_descriptor_ne_fuel data hsd
  | ok sd =>
    rw [hsd] at h
    try dsimp only at h
    cases h

theorem pyReshape_ne_fuel (width : Nat) (xs : List Px) :
    pyReshape width xs ≠ Except.error PyError.fuel := by
  cases xs with
  | nil =>
    rw [pyReshape]
    simp
  | cons x xs2 =>
    rw [pyReshape]
    try dsimp only
    split <;> simp

theorem subBlockLoop_ne_fuel (image_bytes : List Nat) :
    ∀ (f start len : Nat) (acc : List Nat),
      image_bytes.length + 1 ≤ f + start → start ≤ image_bytes.length →
      subBlockLoop image_bytes f start len acc ≠ Except.error PyError.fuel := by
  intro f
  induction f with
  | zero =>
    intro start len acc h1 h2
    omega
  | succ n ih =>
    intro start len acc h1 h2
    cases len with
    | zero =>
      rw [subBlockLoop]
      simp
    | succ m =>
      rw [subBlockLoop]
      try dsimp only
      cases hpb : pyByte image_bytes (start + (m + 1) + 1) with
      | error e =>
        try dsimp only
        intro hcon
        cases hcon
        exact pyByte_ne_fuel _ _ hpb
      | ok next_len =>
        try dsimp only
        apply ih
        · have := pyByte_ok_lt _ _ _ hpb
          omega
        · have := pyByte_ok_lt _ _ _ hpb
          omega

theorem pyEntry_error (tbl : List Entry) (i : Nat) (e : PyError)
    (h : pyEntry tbl i = Except.error e) : e = PyError.indexError := by
  unfold pyEntry at h
  split at h
  · cases h
  · cases h
    rfl

theorem entryHead_error (en : Entry) (e : PyError)
    (h : entryHead en = Except.error e) : e = PyError.indexError := by
  cases en with
  | colors cs =>
    cases cs with
    | nil =>
      cases h
      rfl
    | cons p ps => cases h
  | sent st =>
    unfold entryHead at h
    try dsimp only at h
    cases hl : st.toList with
    | nil =>
      rw [hl] at h
      try dsimp only at h
      cases h
      rfl
    | cons c cs =>
      rw [hl] at h
      try dsimp only at h
      cases h

theorem entryAppend_error (en : Entry) (b : Px) (e : PyError)
    (h : entryAppend en b = Except.error e) : e = PyError.typeError := by
  cases en with
  | colors cs => cases h
  | sent st =>
    cases h
    rfl

theorem lzwStep_ne_fail_fuel (stream : List Nat) (gc_map : List Color) (mcs cc : Nat)
    (s : LZWState) : lzwStep stream gc_map mcs cc s ≠ StepRes.fail PyError.fuel := by
  intro h
  by_cases hch : readChunk stream s = []
  · rw [lzwStep] at h
    simp [hch] at h
  · rw [lzwStep] at h
    simp only [if_neg hch] at h
    by_cases hcc : codeVal (readChunk stream s) = cc
    · rw [if_pos hcc] at h
      exact StepRes.noConfusion h
    · rw [if_neg hcc] at h
      by_cases hcc1 : codeVal (readChunk stream s) = cc + 1
      · rw [if_pos hcc1] at h
        exact StepRes.noConfusion h
      · rw [if_neg hcc1] at h
        repeat (any_goals (split at h))
        any_goals exact StepRes.noConfusion h
        all_goals rw [StepRes.fail.injEq] at h
        all_goals first
          | (subst h
             first
               | exact PyError.noConfusion (pyEntry_error _ _ _ (by assumption))
               | exact PyError.noConfusion (entryHead_error _ _ (by assumption))
               | exact PyError.noConfusion (entryAppend_error _ _ _ (by assumption)))
          | cases h

theorem lzwStep_cont_shape (stream : List Nat) (gc_map : List Color) (mcs cc : Nat)
    (s s2 : LZWState) (hstep : lzwStep stream gc_map mcs cc s = StepRes.cont s2) :
    s2.start_b = s.start_b + s.code_size ∧ 1 ≤ s2.code_size ∧
    s.start_b < stream.length ∧ 1 ≤ s.code_size := by
  by_cases hch : readChunk stream s = []
  · rw [lzwStep] at hstep
    simp [hch] at hstep
  · have hlen : s.start_b < stream.length := by
      by_contra hx
      push_neg at hx
      apply hch
      unfold readChunk
      rw [List.drop_eq_nil_of_le hx]
      simp
    have hcs1 : 1 ≤ s.code_size := by
      by_contra hx
      push_neg at hx
      apply hch
      unfold readChunk
      have : s.code_size = 0 := by omega
      rw [this]
      simp
    rw [lzwStep] at hstep
    simp only [if_neg hch] at hstep
    by_cases hcc : codeVal (readChunk stream s) = cc
    · rw [if_pos hcc] at hstep
      rw [StepRes.cont.injEq] at hstep
      subst hstep
      refine ⟨by rw [epilogue_start_b], ?_, hlen, hcs1⟩
      rw [epilogue_code_size]
      split <;> simp
    · rw [if_neg hcc] at hstep
      repeat (any_goals (split at hstep))
      any_goals exact StepRes.noConfusion hstep
      all_goals rw [StepRes.cont.injEq] at hstep
      all_goals subst hstep
      all_goals refine ⟨by rw [epilogue_start_b], ?_, hlen, hcs1⟩
      all_goals rw [epilogue_code_size]
      all_goals split
      all_goals simp
      all_goals omega

theorem lzwLoop_ne_fuel (stream : List Nat) (gc_map : List Color) (mcs cc : Nat) :
    ∀ (f : Nat) (s : LZWState),
      stream.length - s.start_b + 1 ≤ f → 1 ≤ s.code_size →
      lzwLoop stream gc_map mcs cc f s ≠ Except.error PyError.fuel := by
  intro f
  induction f with
  | zero =>
    intro s h1 h2
    omega
  | succ n ih =>
    intro s h1 h2 h
    rw [lzwLoop] at h
    cases hstep : lzwStep stream gc_map mcs cc s with
    | done o =>
      rw [hstep] at h
      try dsimp only at h
      exact Except.noConfusion h
    | fail e =>
      rw [hstep] at h
      try dsimp only at h
      cases h
      exact lzwStep_ne_fail_fuel stream gc_map mcs cc s hstep
    | cont s3 =>
      rw [hstep] at h
      try dsimp only at h
      obtain ⟨hsb, hcs, hlt, hcs1⟩ := lzwStep_cont_shape stream gc_map mcs cc s s3 hstep
      exact ih s3 (by omega) hcs h

theorem extract_image_ne_fuel (data : List Nat) :
    extract_image data ≠ Except.error PyError.fuel := by
  intro h
  rw [extract_image] at h
  cases hsd : extract_screen_descriptor data with
  | error e =>
    rw [hsd] at h
    cases h
    exact extract_screen_descriptor_ne_fuel data hsd
  | ok sd =>
    rw [hsd] at h
    try dsimp only at h
    set ib : List Nat := data.drop ((pyFind data 44 (13 + 3 * 2 ^ (sd.gc_size + 1)) + 10).toNat)
      with hib
    cases hmc : pyByte ib 0 with
    | error e =>
      rw [hmc] at h
      cases h
      exact pyByte_ne_fuel _ _ hmc
    | ok min_code_size =>
      rw [hmc] at h
      try dsimp only at h
      cases hl0 : pyByte ib 1 with
      | error e =>
        rw [hl0] at h
        cases h
        exact pyByte_ne_fuel _ _ hl0
      | ok len0 =>
        rw [hl0] at h
        try dsimp only at h
        cases hsb : subBlockLoop ib (ib.length + 1) 1 len0 [] with
        | error e =>
          rw [hsb] at h
          cases h
          refine subBlockLoop_ne_fuel ib (ib.length + 1) 1 len0 [] (by omega) ?_ hsb
          have := pyByte_ok_lt ib 0 min_code_size hmc
          omega
        | ok ds =>
          rw [hsb] at h
          try dsimp only at h
          cases hgc : extract_global_colour_table data with
          | error e =>
            rw [hgc] at h
            cases h
            exact extract_global_colour_table_ne_fuel data hgc
          | ok gc_map =>
            rw [hgc] at h
            try dsimp only at h
            cases hlz : lzwLoop ds gc_map min_code_size gc_map.length (ds.length + 2)
                { start_b := 0, count := 0, code_size := min_code_size + 1, first := none,
                  code_table := none, previous_code := none, image_data := [] } with
            | error e =>
              rw [hlz] at h
              cases h
              refine lzwLoop_ne_fuel ds gc_map min_code_size gc_map.length (ds.length + 2) _
                (by simp) (by simp) hlz
            | ok flat =>
              rw [hlz] at h
              try dsimp only at h
              cases hid : extract_image_descriptor data with
              | error e =>
                rw [hid] at h
                cases h
                exact extract_image_descriptor_ne_fuel data hid
              | ok idesc =>
                rw [hid] at h
                try dsimp only at h
                exact pyReshape_ne_fuel _ _ h

/-- C6 (amended): truncation failures are untyped Python exceptions, not a typed
TruncatedStream value, and the decode never loops forever.  Universally: whenever
the sub-block loop meets a declared (non-zero) length that would run past the end
of the buffer, it fails with the uncaught IndexError of the next length-byte
read; whenever the decoder loop's bit cursor stands at or past the end of the bit
stream — the stream exhausted with no EOI read — the next iteration fails with
the uncaught ValueError of `int("", 2)`; and on every input the two loops
terminate (the fuel marker of the embedding is unreachable).  The two concrete
conjuncts show both failure shapes end-to-end through `extract_image`. -/
theorem C6_failure_modes :
    (∀ (ib : List Nat) (f start len : Nat) (acc : List Nat),
        ib.length < start + (len + 1) + 1 →
        subBlockLoop ib (f + 1) start (len + 1) acc = Except.error PyError.indexError) ∧
    (∀ (stream : List Nat) (gc_map : List Color) (mcs cc f : Nat) (s : LZWState),
        stream.length ≤ s.start_b →
        lzwLoop stream gc_map mcs cc (f + 1) s = Except.error PyError.valueError) ∧
    extract_image c6TruncData = Except.error PyError.indexError ∧
    extract_image c6ExhaustData = Except.error PyError.valueError ∧
    (∀ data : List Nat, extract_image data ≠ Except.error PyError.fuel) := by
  refine ⟨?_, ?_, rfl, rfl, extract_image_ne_fuel⟩
  · intro ib f start len acc hlen
    rw [subBlockLoop]
    try dsimp only
    have hpb : pyByte ib (start + (len + 1) + 1) = Except.error PyError.indexError := by
      unfold pyByte
      rw [dif_neg (by omega)]
    rw [hpb]
  · intro stream gc_map mcs cc f s hge
    have hch : readChunk stream s = [] := by
      unfold readChunk
      rw [List.drop_eq_nil_of_le hge]
      simp
    have hstep : lzwStep stream gc_map mcs cc s = StepRes.fail PyError.valueError := by
      rw [lzwStep]
      simp [hch]
    rw [lzwLoop, hstep]

/-- Witness for C6: the truncation conjunct at the data region of `c6TruncData`
(buffer of 4 bytes, declared sub-block length 5 at position 1) and the
exhaustion conjunct on an empty bit stream from the initial state, together with
the closed conjuncts. -/
theorem C6_witness :
    subBlockLoop [2, 5, 68, 52] 4 1 5 [] = Except.error PyError.indexError ∧
    lzwLoop [] c4Gc 2 4 1 (lzwInit 2) = Except.error PyError.valueError ∧
    extract_image c6TruncData = Except.error PyError.indexError ∧
    extract_image c6ExhaustData = Except.error PyError.valueError ∧
    extract_image [] ≠ Except.error PyError.fuel :=
  ⟨C6_failure_modes.1 [2, 5, 68, 52] 3 1 4 [] (by decide),
   C6_failure_modes.2.1 [] c4Gc 2 4 0 (lzwInit 2) (by decide),
   C6_failure_modes.2.2.1,
   C6_failure_modes.2.2.2.1,
   C6_failure_modes.2.2.2.2 []⟩

theorem mod_succ_eq (p w : Nat) (hw : 0 < w) :
    (p + 1) % w = (if p % w + 1 = w then 0 else p % w + 1) := by
  conv_lhs => rw [← Nat.div_add_mod p w]
  rw [Nat.add_assoc, Nat.mul_add_mod]
  split
  · rename_i hh
    rw [hh]
    simp
  · rename_i hh
    have hlt : p % w < w := Nat.mod_lt p hw
    exact Nat.mod_eq_of_lt (by omega)

theorem reshapeGo_length (w : Nat) (hw : 0 < w) :
    ∀ (rest : List Px) (p : Nat) (row : List Px) (image : List (List Px)),
      row.length = p % w → (∀ r ∈ image, r.length = w) →
      (∀ r ∈ reshapeGo w (p + 1) rest row image, r.length = w) ∧
      (reshapeGo w (p + 1) rest row image).length =
        image.length + (row.length + rest.length) / w := by
  intro rest
  induction rest with
  | nil =>
    intro p row image hrow himg
    rw [reshapeGo]
    refine ⟨himg, ?_⟩
    have hlt : row.length < w := by
      rw [hrow]
      exact Nat.mod_lt p hw
    simp only [List.length_nil, Nat.add_zero]
    rw [Nat.div_eq_of_lt hlt]
    simp
  | cons c rest2 ih =>
    intro p row image hrow himg
    rw [reshapeGo]
    try dsimp only
    have hmod := mod_succ_eq p w hw
    by_cases hix : (p + 1) % w = 0
    · rw [if_pos hix]
      rw [hix] at hmod
      have hfull : p % w + 1 = w := by
        by_contra hx
        rw [if_neg hx] at hmod
        omega
      have hrow2 : ([] : List Px).length = (p + 1) % w := by
        simp [hix]
      have himg2 : ∀ r ∈ image ++ [row ++ [c]], r.length = w := by
        intro r hr
        rcases List.mem_append.mp hr with hm | hm
        · exact himg r hm
        · simp only [List.mem_singleton] at hm
          subst hm
          simp only [List.length_append, List.length_cons, List.length_nil]
          omega
      obtain ⟨ha, hb⟩ := ih (p + 1) [] (image ++ [row ++ [c]]) hrow2 himg2
      refine ⟨ha, ?_⟩
      rw [hb]
      simp only [List.length_cons]
      have harg : row.length + (rest2.length + 1) = rest2.length + w := by omega
      rw [harg, Nat.add_div_right rest2.length hw]
      simp only [List.length_append, List.length_cons, List.length_nil, Nat.zero_add]
      omega
    · rw [if_neg hix]
      have hnot : ¬(p % w + 1 = w) := by
        intro hx
        rw [if_pos hx] at hmod
        omega
      rw [if_neg hnot] at hmod
      have hrow2 : (row ++ [c]).length = (p + 1) % w := by
        simp only [List.length_append, List.length_cons, List.length_nil]
        omega
      obtain ⟨ha, hb⟩ := ih (p + 1) (row ++ [c]) image hrow2 himg
      refine ⟨ha, ?_⟩
      rw [hb]
      simp only [List.length_cons]
      have harg : (row ++ [c]).length + rest2.length = row.length + (rest2.length + 1) := by
        simp only [List.length_append, List.length_cons, List.length_nil]
        omega
      rw [harg]

/-- C7 (amended): for a positive width the grid builder always returns a grid (no
dimension error exists in the source): each produced row holds exactly `width`
pixels and the number of rows is the floor of count / width, so when the width
divides the pixel count rows x width recovers the whole count, and otherwise the
trailing partial row is silently dropped. -/
theorem C7_reshape (width : Nat) (xs : List Px) (hw : 0 < width) :
    pyReshape width xs = Except.ok (reshapeGo width 1 xs [] []) ∧
    (∀ r ∈ reshapeGo width 1 xs [] [], r.length = width) ∧
    (reshapeGo width 1 xs [] []).length = xs.length / width ∧
    (width ∣ xs.length → (reshapeGo width 1 xs [] []).length * width = xs.length) := by
  obtain ⟨ha, hb⟩ := reshapeGo_length width hw xs 0 [] [] (by simp)
    (by intro r hr; exact absurd hr (List.not_mem_nil r))
  refine ⟨?_, ha, ?_, ?_⟩
  · cases xs with
    | nil => rfl
    | cons x xs2 =>
      rw [pyReshape]
      rw [if_neg (by omega)]
  · rw [hb]
    simp
  · intro hdvd
    rw [hb]
    simp
    exact Nat.div_mul_cancel hdvd

/-- Witness for C7: five pixels reshaped at width 2 give two full rows, the fifth
pixel being dropped. -/
theorem C7_witness :
    pyReshape 2 c7Flat = Except.ok (reshapeGo 2 1 c7Flat [] []) ∧
    (∀ r ∈ reshapeGo 2 1 c7Flat [] [], r.length = 2) ∧
    (reshapeGo 2 1 c7Flat [] []).length = c7Flat.length / 2 ∧
    (2 ∣ c7Flat.length → (reshapeGo 2 1 c7Flat [] []).length * 2 = c7Flat.length) :=
  C7_reshape 2 c7Flat (by decide)

end Gif

